import Mathlib

/-!
The socket_server repository: batching, fan-out and persistence of sensor messages.

A shallow embedding of `src/socketio-server.js` (class `BatchManager`, the
Redis message handler, `handleSensorAPI`) and of the message handler of
`src/mqtt-bridge.js`, with the properties of the batching / persistence engine
and of the sensor API proved about it.

Conventions of the embedding

* a JavaScript `Map` is an association list in insertion order; `get` reads
  the first binding of a key, `set` overwrites it in place or appends a new
  binding at the end, `keys` lists the keys in insertion order;
* the calls made on external collaborators (`io.to(room).emit`, the Mongo
  models) are recorded, in call order, in trace fields of the state;
* wall-clock values (`Date.now()`, `new Date()`) are not computed: the
  `timestamp` of an emitted batch is left out and a `new Date()` written to
  the store is the marker `UpdVal.now`;
* a parsed message is JSON `null` or the six properties the handlers read, each
  a primitive value; JSON numbers are the integers, which a template literal
  prints in decimal (as JavaScript does below `10^21` in magnitude);
* the batching methods never inspect a message, so `BatchManager` is generic in
  the message type; `flushDBQueue` and the handlers work on `Data`.
-/

namespace SocketServer

/-! ## Configuration -/

/-- The fields of `CONFIG` in `socketio-server.js` that the batching code reads. -/
structure Config where
  batchInterval : Nat
  batchSize : Nat
  deriving Repr, DecidableEq

/-- The constant `CONFIG` of `socketio-server.js`: `batchInterval: 100, batchSize: 50`. -/
def CONFIG : Config := ⟨100, 50⟩

/-! ## JavaScript `Map` as an association list -/

/-- The method `Map.prototype.get`: the value bound to `k`, `none` for `undefined`. -/
def mapGet {β : Type} : List (String × β) → String → Option β
  | [], _ => none
  | (k, v) :: m, r => if k = r then some v else mapGet m r

/-- The method `Map.prototype.has`. -/
def mapHas {β : Type} (m : List (String × β)) (r : String) : Bool :=
  (mapGet m r).isSome

/-- The method `Map.prototype.set`: overwrite the binding of `r` where it stands,
or append a new binding when `r` is not a key yet. -/
def mapSet {β : Type} : List (String × β) → String → β → List (String × β)
  | [], r, v => [(r, v)]
  | (k, w) :: m, r, v => if k = r then (k, v) :: m else (k, w) :: mapSet m r v

/-- The method `Map.prototype.keys`, in insertion order. -/
def mapKeys {β : Type} (m : List (String × β)) : List String :=
  m.map Prod.fst

/-! ## The batch manager -/

/-- The payload of one `emit('batch', ...)`: `data` and `count`
(the `timestamp: Date.now()` property is wall-clock time and is left out). -/
structure Batch (α : Type) where
  data : List α
  count : Nat
  deriving Repr, DecidableEq

/-- A primitive JavaScript value as `JSON.parse` can put it in a property, with
`undefined` for an absent property. Numbers are the integers. -/
inductive JsVal where
  | undefined
  | null
  | bool (b : Bool)
  | num (n : Int)
  | str (s : String)
  deriving Repr, DecidableEq

/-- A value written by an update operator: a value of the message, or `new Date()`. -/
inductive UpdVal where
  | val (v : JsVal)
  | now
  deriving Repr, DecidableEq

/-- One document built by `toWrite.map(msg => (...))` in `flushDBQueue`;
`timestamp` holds the argument of `new Date(msg.timestamp)`. -/
structure Reading where
  sensorId : JsVal
  sensorType : JsVal
  value : JsVal
  edgeId : JsVal
  timestamp : JsVal
  status : JsVal
  deriving Repr, DecidableEq

/-- The update document passed to `SensorMetadata.findOneAndUpdate`: the operators
`$set`, `$inc` and `$setOnInsert`, each a list of field / value pairs. -/
structure Update where
  set : List (String × UpdVal)
  inc : List (String × Int)
  setOnInsert : List (String × UpdVal)
  deriving Repr, DecidableEq

/-- A call on the persistent store. -/
inductive StoreCall where
  | insertMany (readings : List Reading)
  | findOneAndUpdate (sensorId : JsVal) (update : Update)
  deriving Repr, DecidableEq

/-- The state of a `BatchManager` over messages of type `α`: the fields `batches`
and `dbWriteQueue` of the class, and the traces of the calls it made on
`io.to(room).emit('batch', ...)` and on the store. -/
structure BatchManager (α : Type) where
  batches : List (String × List α)
  dbWriteQueue : List α
  emitted : List (String × Batch α)
  storeCalls : List StoreCall

/-- The constructor: `this.batches = new Map(); this.dbWriteQueue = []`. -/
def BatchManager.new {α : Type} : BatchManager α := ⟨[], [], [], []⟩

/-- The method `flushBatch(room)`. -/
def flushBatch {α : Type} (room : String) (bm : BatchManager α) : BatchManager α :=
  match mapGet bm.batches room with
  | none => bm
  | some batch =>
    if batch.length = 0 then bm
    else
      { bm with
        emitted := bm.emitted ++ [(room, ⟨batch, batch.length⟩)]
        batches := mapSet bm.batches room [] }

/-- The method `addMessage(room, message)`. -/
def addMessage {α : Type} (room : String) (message : α) (bm : BatchManager α) :
    BatchManager α :=
  let batches1 := if !mapHas bm.batches room then mapSet bm.batches room [] else bm.batches
  let batch := (mapGet batches1 room).getD [] ++ [message]
  let bm1 : BatchManager α :=
    { bm with
      batches := mapSet batches1 room batch
      dbWriteQueue := bm.dbWriteQueue ++ [message] }
  if batch.length ≥ CONFIG.batchSize then flushBatch room bm1 else bm1

/-- The method `flushAllBatches()`: `flushBatch` on every key, in key order. -/
def flushAllBatches {α : Type} (bm : BatchManager α) : BatchManager α :=
  (mapKeys bm.batches).foldl (fun s room => flushBatch room s) bm

/-! ## Observations on a state -/

/-- The batches emitted to `room` so far, in emission order. -/
def batchesFor {α : Type} (room : String) (bm : BatchManager α) : List (Batch α) :=
  (bm.emitted.filter (fun p => p.1 = room)).map Prod.snd

/-- The events delivered to `room` so far: the emitted batches concatenated. -/
def delivered {α : Type} (room : String) (bm : BatchManager α) : List α :=
  ((batchesFor room bm).map Batch.data).flatten

/-- The buffer of `room`, empty when the room has no buffer yet. -/
def pending {α : Type} (room : String) (bm : BatchManager α) : List α :=
  (mapGet bm.batches room).getD []

/-- One step of the batching engine: an `addMessage` call or a timer tick. -/
inductive Op (α : Type) where
  | addMessage (room : String) (message : α)
  | tick

/-- Run one step. -/
def Op.step {α : Type} : Op α → BatchManager α → BatchManager α
  | .addMessage room message, bm => SocketServer.addMessage room message bm
  | .tick, bm => flushAllBatches bm

/-- Run a sequence of steps, first step first. -/
def run {α : Type} (ops : List (Op α)) (bm : BatchManager α) : BatchManager α :=
  ops.foldl (fun s op => op.step s) bm

/-- The messages the `addMessage` calls of `ops` append to `room`, in call order. -/
def appended {α : Type} (room : String) : List (Op α) → List α
  | [] => []
  | .addMessage r message :: ops =>
    if r = room then message :: appended room ops else appended room ops
  | .tick :: ops => appended room ops

/-- Everything ever appended to `room`: what was delivered, then what is buffered. -/
def history {α : Type} (room : String) (bm : BatchManager α) : List α :=
  delivered room bm ++ pending room bm

/-- The state of `addMessage` after the two pushes, before the size test. -/
def pushed {α : Type} (room : String) (message : α) (bm : BatchManager α) :
    BatchManager α :=
  { bm with
    batches :=
      mapSet (if !mapHas bm.batches room then mapSet bm.batches room [] else bm.batches) room
        ((mapGet (if !mapHas bm.batches room then mapSet bm.batches room [] else bm.batches)
          room).getD [] ++ [message])
    dbWriteQueue := bm.dbWriteQueue ++ [message] }

/-- The messages the `addMessage` calls of `ops` push on the write queue, in call order. -/
def enqueued {α : Type} : List (Op α) → List α
  | [] => []
  | .addMessage _ message :: ops => message :: enqueued ops
  | .tick :: ops => enqueued ops

/-! ## Messages -/

/-- A JSON object as the handlers read it: the six properties they access, an
absent property being `undefined`. -/
structure Msg where
  sensorId : JsVal
  sensorType : JsVal
  value : JsVal
  edgeId : JsVal
  timestamp : JsVal
  status : JsVal
  deriving Repr, DecidableEq

/-- The value of `JSON.parse(message)`: JSON `null`, on which a property access
throws a `TypeError`, or a value whose properties can be read. -/
inductive Data where
  | null
  | obj (m : Msg)
  deriving Repr, DecidableEq

/-- The string a template literal puts for a primitive value; an integer is
printed in decimal. -/
def JsVal.toStr : JsVal → String
  | .undefined => "undefined"
  | .null => "null"
  | .bool true => "true"
  | .bool false => "false"
  | .num n => toString n
  | .str s => s

/-- JavaScript truthiness of a primitive value. -/
def JsVal.truthy : JsVal → Bool
  | .undefined => false
  | .null => false
  | .bool b => b
  | .num n => decide (n ≠ 0)
  | .str s => decide (s ≠ "")

/-- The expression `status || 'active'`. -/
def orActive (status : JsVal) : JsVal :=
  if status.truthy then status else .str "active"

/-! ## The Redis message handler of `socketio-server.js` -/

/-- The handler `redisSubscriber.on('message', ...)`; `message` is the outcome of
`JSON.parse(message)`, `none` when it throws. Every exception is caught and
leaves the calls made before it in place. -/
def onMessage (message : Option Data) (bm : BatchManager Data) : BatchManager Data :=
  match message with
  | none => bm
  | some data =>
    let bm1 := addMessage "sensors:all" data bm
    match data with
    | .null => bm1
    | .obj m =>
      let bm2 := addMessage ("edge:" ++ m.edgeId.toStr) data bm1
      let bm3 := addMessage ("sensor:" ++ m.sensorType.toStr) data bm2
      addMessage ("sensor:" ++ m.sensorId.toStr) data bm3

/-- The four room keys the handler computes for an object, in call order. -/
def roomsOf (m : Msg) : List String :=
  ["sensors:all", "edge:" ++ m.edgeId.toStr, "sensor:" ++ m.sensorType.toStr,
    "sensor:" ++ m.sensorId.toStr]

/-- The enum of `sensorType` in `sensorReadingSchema` (`models.js`). -/
def SENSOR_TYPES : List String := ["temperature", "humidity", "pressure", "vibration"]

/-- A structurally valid event: `sensorType` in the schema enum, `sensorId` and
`edgeId` integers. -/
def Msg.valid (m : Msg) : Prop :=
  (∃ ty, ty ∈ SENSOR_TYPES ∧ m.sensorType = .str ty)
  ∧ (∃ i : Int, m.sensorId = .num i) ∧ (∃ e : Int, m.edgeId = .num e)

/-! ## The durable write queue -/

/-- The persistent store as the flush sees it: whether the promise of a call
resolves (`true`) or rejects (`false`). -/
structure Store where
  insertMany : List Reading → Bool
  findOneAndUpdate : JsVal → Update → Bool

/-- The document `toWrite.map` builds for one message. -/
def toReading (m : Msg) : Reading :=
  ⟨m.sensorId, m.sensorType, m.value, m.edgeId, m.timestamp, orActive m.status⟩

/-- The messages of the snapshot as objects; `none` when one of them is `null`,
where `msg.sensorId` throws a `TypeError`. -/
def asObjects : List Data → Option (List Msg)
  | [] => some []
  | .null :: _ => none
  | .obj m :: ds => (asObjects ds).map (fun ms => m :: ms)

/-- The constructor `new Set(values)` spread into an array: the distinct values
in order of first occurrence. -/
def setOf (values : List JsVal) : List JsVal :=
  values.foldl (fun acc v => if v ∈ acc then acc else acc ++ [v]) []

/-- The expression `[...new Set(toWrite.map(m => m.sensorId))]`. -/
def uniqueSensors (toWrite : List Msg) : List JsVal :=
  setOf (toWrite.map (fun m => m.sensorId))

/-- The update document of `findOneAndUpdate` for `sensorData`. -/
def updateOf (sensorData : Msg) : Update :=
  { set := [("sensorType", .val sensorData.sensorType), ("edgeId", .val sensorData.edgeId),
            ("lastSeen", .now), ("status", .val (orActive sensorData.status))]
    inc := [("totalReadings", 1)]
    setOnInsert := [("firstSeen", .now)] }

/-- The loop `for (const sensorId of uniqueSensors)`: the store calls it makes and
whether it runs to its end. `find` returning `undefined` makes the property
access throw; a rejected `findOneAndUpdate` throws after the call. -/
def upsertLoop (store : Store) (toWrite : List Msg) : List JsVal → List StoreCall × Bool
  | [] => ([], true)
  | sensorId :: rest =>
    match toWrite.find? (fun m => decide (m.sensorId = sensorId)) with
    | none => ([], false)
    | some sensorData =>
      if store.findOneAndUpdate sensorId (updateOf sensorData) then
        ((StoreCall.findOneAndUpdate sensorId (updateOf sensorData))
          :: (upsertLoop store toWrite rest).1, (upsertLoop store toWrite rest).2)
      else ([StoreCall.findOneAndUpdate sensorId (updateOf sensorData)], false)

/-- The body of the `try` block of `flushDBQueue` on the object snapshot: the
store calls made, and whether the block completes without an exception. -/
def persist (store : Store) (toWrite : List Msg) : List StoreCall × Bool :=
  let readings := toWrite.map toReading
  if readings.length > 0 ∧ store.insertMany readings = false then
    ([StoreCall.insertMany readings], false)
  else
    ((if readings.length > 0 then [StoreCall.insertMany readings] else [])
      ++ (upsertLoop store toWrite (uniqueSensors toWrite)).1,
     (upsertLoop store toWrite (uniqueSensors toWrite)).2)

/-- The method `flushDBQueue()`. `during` are the `addMessage` calls and batch
ticks that run while the flush awaits the store; they touch the buffers and the
queue only, so their position among the store calls does not matter. When a
`null` message makes `toWrite.map` throw, the `catch` runs before any `await`
and nothing is interleaved. -/
def flushDBQueue (store : Store) (during : List (Op Data)) (bm : BatchManager Data) :
    BatchManager Data :=
  if bm.dbWriteQueue.length = 0 then bm
  else
    let toWrite := bm.dbWriteQueue
    let bm0 : BatchManager Data := { bm with dbWriteQueue := [] }
    match asObjects toWrite with
    | none => { bm0 with dbWriteQueue := bm0.dbWriteQueue ++ toWrite }
    | some msgs =>
      let bm1 := run during bm0
      let bm2 : BatchManager Data :=
        { bm1 with storeCalls := bm1.storeCalls ++ (persist store msgs).1 }
      if (persist store msgs).2 then bm2
      else { bm2 with dbWriteQueue := bm2.dbWriteQueue ++ toWrite }

/-- Whether the bulk insert or an upsert of a flush of `queue` fails. -/
def storeFails (store : Store) (queue : List Data) : Bool :=
  match asObjects queue with
  | none => false
  | some msgs => !(persist store msgs).2

/-! ## The MQTT message handler of `mqtt-bridge.js` -/

/-- The counters `stats` of the bridge (`lastReset` is wall-clock time). -/
structure Stats where
  received : Nat
  published : Nat
  errors : Nat
  deriving Repr, DecidableEq

/-- The bridge: its counters and the messages it published on the Redis channel. -/
structure Bridge where
  stats : Stats
  forwarded : List Data
  deriving Repr, DecidableEq

/-- The test `v === undefined || v === null`. -/
def JsVal.missing (v : JsVal) : Bool :=
  decide (v = .undefined) || decide (v = .null)

/-- The handler `mqttClient.on('message', ...)`; `payload` is the outcome of
`JSON.parse(payload.toString())`, `none` when it throws, and `publishOk` tells
whether the promise of `redisPublisher.publish` resolves. -/
def bridgeOnMessage (publishOk : Bool) (payload : Option Data) (b : Bridge) : Bridge :=
  let b1 : Bridge := { b with stats := { b.stats with received := b.stats.received + 1 } }
  let failed : Bridge := { b1 with stats := { b1.stats with errors := b1.stats.errors + 1 } }
  match payload with
  | none => failed
  | some .null => failed
  | some (.obj m) =>
    if m.sensorId.missing || m.value.missing then failed
    else if publishOk then
      { b1 with
        forwarded := b1.forwarded ++ [Data.obj m]
        stats := { b1.stats with published := b1.stats.published + 1 } }
    else failed

/-- The two processes: the bridge and the Socket.IO server behind the channel. -/
structure System where
  bridge : Bridge
  server : BatchManager Data

/-- One MQTT message through the system: the bridge handles it, and a message it
published reaches the Redis handler of the server, where `JSON.parse` gives back
the value that `JSON.stringify` was given. -/
def ingest (publishOk : Bool) (payload : Option Data) (sys : System) : System :=
  let bridge := bridgeOnMessage publishOk payload sys.bridge
  { bridge := bridge
    server :=
      (bridge.forwarded.drop sys.bridge.forwarded.length).foldl
        (fun s data => onMessage (some data) s) sys.server }

/-! ## Sample inputs and trace projections -/

/-- A store on which every call succeeds. -/
def acceptAll : Store := ⟨fun _ => true, fun _ _ => true⟩

/-- A store whose bulk insert is rejected. -/
def rejectInsert : Store := ⟨fun _ => false, fun _ _ => true⟩

/-- A well-formed reading of value 20 taken at time 1000. -/
def sample (sensorId : Int) (sensorType : String) (edgeId : Int) (status : String) : Msg :=
  ⟨.num sensorId, .str sensorType, .num 20, .num edgeId, .num 1000, .str status⟩

/-- Three events of sensor 7 in one snapshot: kinds temperature, humidity, pressure,
in that order, the last one on another edge and in state `failed`. -/
def snapshot7 : List Msg :=
  [sample 7 "temperature" 1 "active", sample 7 "humidity" 2 "active",
    sample 7 "pressure" 3 "failed"]

/-- A fresh manager whose write queue holds `queue`. -/
def withQueue (queue : List Data) : BatchManager Data :=
  { (BatchManager.new : BatchManager Data) with dbWriteQueue := queue }

/-- The `findOneAndUpdate` calls of a trace: sensor id and update document. -/
def upsertsOf : List StoreCall → List (JsVal × Update)
  | [] => []
  | .insertMany _ :: cs => upsertsOf cs
  | .findOneAndUpdate sensorId update :: cs => (sensorId, update) :: upsertsOf cs

/-- Whether a flush of `queue` runs its `try` block to the end. -/
def flushSucceeds (store : Store) (queue : List Data) : Bool :=
  match asObjects queue with
  | none => false
  | some msgs => (persist store msgs).2

/-- The characters of a printed integer. -/
def numChars : List Char := ['-', '0', '1', '2', '3', '4', '5', '6', '7', '8', '9']

/-- Follows the claim's words: the distinct values of a list, each once, in order
of first occurrence. -/
def firstOccurrences : List JsVal → List JsVal
  | [] => []
  | v :: vs => v :: (firstOccurrences vs).filter (fun w => decide (w ≠ v))

/-- The store calls made by one `flushDBQueue`: what it adds to the trace. -/
def flushCalls (store : Store) (during : List (Op Data)) (bm : BatchManager Data) :
    List StoreCall :=
  (flushDBQueue store during bm).storeCalls.drop bm.storeCalls.length

/-- A snapshot with two events of sensor 7 around one event of sensor 8. -/
def snapshot78 : List Msg :=
  [sample 7 "temperature" 1 "active", sample 8 "humidity" 1 "active",
    sample 7 "temperature" 1 "failed"]

/-! ## The sensor API of `socketio-server.js` -/

/-- The method `String.prototype.split` with a one-character separator, on the
characters of the string: `"".split(sep)` is `[""]`. -/
def splitChars (sep : Char) : List Char → List (List Char)
  | [] => [[]]
  | c :: cs =>
    if c = sep then [] :: splitChars sep cs
    else
      match splitChars sep cs with
      | [] => [[c]]
      | piece :: pieces => (c :: piece) :: pieces

/-- The call `s.split(sep)` for a one-character separator. -/
def jsSplit (s : String) (sep : Char) : List String :=
  (splitChars sep s.data).map String.mk

/-- The white space and line terminators that `parseInt` skips at the start
(`StrWhiteSpaceChar` of ECMAScript). -/
def isStrWhiteSpace (c : Char) : Bool :=
  decide (c.toNat ∈ [0x09, 0x0A, 0x0B, 0x0C, 0x0D, 0x20, 0xA0, 0x1680, 0x2028, 0x2029,
    0x202F, 0x205F, 0x3000, 0xFEFF]) || (decide (0x2000 ≤ c.toNat) && decide (c.toNat ≤ 0x200A))

/-- The value of a character as a digit, letters counting from 10. -/
def digitValue (c : Char) : Option Nat :=
  if '0'.toNat ≤ c.toNat ∧ c.toNat ≤ '9'.toNat then some (c.toNat - '0'.toNat)
  else if 'a'.toNat ≤ c.toNat ∧ c.toNat ≤ 'z'.toNat then some (c.toNat - 'a'.toNat + 10)
  else if 'A'.toNat ≤ c.toNat ∧ c.toNat ≤ 'Z'.toNat then some (c.toNat - 'A'.toNat + 10)
  else none

/-- Whether a character is a digit of radix `radix`. -/
def isRadixDigit (radix : Nat) (c : Char) : Bool :=
  match digitValue c with
  | some d => decide (d < radix)
  | none => false

/-- The integer written by digits of radix `radix`. -/
def digitsValue (radix : Nat) (digits : List Char) : Nat :=
  digits.foldl (fun acc c => acc * radix + (digitValue c).getD 0) 0

/-- The function `parseInt(string)` without a radix argument: leading white space
skipped, an optional sign, an optional `0x` / `0X` prefix for radix 16, then the
longest run of digits; `none` is `NaN` (no digit). The integer is exact, where
JavaScript rounds to a double above `2^53`. -/
def parseInt (string : String) : Option Int :=
  let s := string.data.dropWhile isStrWhiteSpace
  let sign : Int := match s with
    | '-' :: _ => -1
    | _ => 1
  let s1 := match s with
    | '-' :: rest => rest
    | '+' :: rest => rest
    | _ => s
  let radix : Nat := match s1 with
    | '0' :: 'x' :: _ => 16
    | '0' :: 'X' :: _ => 16
    | _ => 10
  let s2 := match s1 with
    | '0' :: 'x' :: rest => rest
    | '0' :: 'X' :: rest => rest
    | _ => s1
  let z := s2.takeWhile (isRadixDigit radix)
  if z.isEmpty then none else some (sign * (digitsValue radix z : Int))

/-- A query made on the Mongo models by the sensor API, with the sensor id and the
number of hours of its time window. -/
inductive ApiQuery where
  | find (sensorId : Int) (hours : Int)
  | aggregate (sensorId : Int) (hours : Int)
  | findOne (sensorId : Int)
  deriving Repr, DecidableEq

/-- What the sensor API reads from outside: `hoursParam url` is
`new URL(req.url, ...).searchParams.get('hours')` (`none` for `null`), an error
when the constructor throws; the three queries resolve to documents of types
`ρ`, `α`, `μ` or reject with a message. -/
structure ApiEnv (ρ α μ : Type) where
  hoursParam : String → Except String (Option String)
  find : Int → Int → Except String (List ρ)
  aggregate : Int → Int → Except String (List α)
  findOne : Int → Except String (Option μ)

/-- The JSON body passed to `res.end`. -/
inductive ApiBody (ρ α μ : Type) where
  | failure (error : String)
  | history (data : List ρ) (count : Nat)
  | analytics (analytics : Option α) (metadata : Option μ)
  deriving Repr, DecidableEq

/-- The answer of `handleSensorAPI`: the status of `res.writeHead`, the body, and
the queries made on the store, in call order. -/
structure ApiResponse (ρ α μ : Type) where
  status : Nat
  body : ApiBody ρ α μ
  queries : List ApiQuery
  deriving Repr, DecidableEq

/-- The expression `parseInt(x) || fallback` for `x` a string or `null`. -/
def parseIntOr (x : Option String) (fallback : Int) : Int :=
  match parseInt (x.getD "null") with
  | none => fallback
  | some n => if n = 0 then fallback else n

/-- The function `handleSensorAPI(req, res)` on `req.url`. An exception thrown in
the `try` block is answered with status 500 and its message. -/
def handleSensorAPI {ρ α μ : Type} (env : ApiEnv ρ α μ) (url : String) : ApiResponse ρ α μ :=
  let urlParts := jsSplit url '/'
  let sensorId := parseInt ((urlParts[3]?).getD "undefined")
  let action := (urlParts[4]?).map (fun part => (jsSplit part '?').headD "")
  match sensorId with
  | none => ⟨400, .failure "Invalid sensor ID", []⟩
  | some sensorId =>
    if action = some "history" then
      match env.hoursParam url with
      | .error message => ⟨500, .failure message, []⟩
      | .ok param =>
        match env.find sensorId (parseIntOr param 1) with
        | .error message => ⟨500, .failure message, [.find sensorId (parseIntOr param 1)]⟩
        | .ok readings =>
          ⟨200, .history readings readings.length, [.find sensorId (parseIntOr param 1)]⟩
    else if action = some "analytics" then
      match env.hoursParam url with
      | .error message => ⟨500, .failure message, []⟩
      | .ok param =>
        match env.aggregate sensorId (parseIntOr param 24) with
        | .error message =>
          ⟨500, .failure message, [.aggregate sensorId (parseIntOr param 24)]⟩
        | .ok analytics =>
          match env.findOne sensorId with
          | .error message =>
            ⟨500, .failure message,
              [.aggregate sensorId (parseIntOr param 24), .findOne sensorId]⟩
          | .ok metadata =>
            ⟨200, .analytics analytics.head? metadata,
              [.aggregate sensorId (parseIntOr param 24), .findOne sensorId]⟩
    else ⟨404, .failure "Invalid action", []⟩

/-- An environment in which the URL parses, `hours` is absent and every query
resolves to nothing. -/
def emptyEnv : ApiEnv Unit Unit Unit :=
  ⟨fun _ => .ok none, fun _ _ => .ok [], fun _ _ => .ok [], fun _ => .ok none⟩

/-! # Theorems -/

/-! ## Lemmas on the association-list map -/

theorem mapGet_mapSet_same {β : Type} (m : List (String × β)) (r : String) (v : β) :
    mapGet (mapSet m r v) r = some v := by
  induction m with
  | nil => simp [mapSet, mapGet]
  | cons p m ih =>
    obtain ⟨k, w⟩ := p
    by_cases h : k = r
    · simp [mapSet, mapGet, h]
    · simp [mapSet, mapGet, h, ih]

theorem mapGet_mapSet_ne {β : Type} (m : List (String × β)) (r r' : String) (v : β)
    (h : r ≠ r') : mapGet (mapSet m r v) r' = mapGet m r' := by
  induction m with
  | nil => simp [mapSet, mapGet, h]
  | cons p m ih =>
    obtain ⟨k, w⟩ := p
    by_cases hk : k = r
    · subst hk
      simp [mapSet, mapGet, h]
    · by_cases hk' : k = r'
      · subst hk'
        simp [mapSet, mapGet, hk]
      · simp [mapSet, mapGet, hk, hk', ih]

theorem mapGet_eq_none_of_not_mem {β : Type} (m : List (String × β)) (r : String)
    (h : r ∉ mapKeys m) : mapGet m r = none := by
  induction m with
  | nil => rfl
  | cons p m ih =>
    obtain ⟨k, w⟩ := p
    simp only [mapKeys, List.map_cons, List.mem_cons, not_or] at h
    have hk : ¬ k = r := fun e => h.1 e.symm
    simp only [mapGet, hk, if_false]
    exact ih h.2

theorem mapKeys_mapSet_of_mem {β : Type} (m : List (String × β)) (r : String) (v : β)
    (h : r ∈ mapKeys m) : mapKeys (mapSet m r v) = mapKeys m := by
  induction m with
  | nil => simp [mapKeys] at h
  | cons p m ih =>
    obtain ⟨k, w⟩ := p
    by_cases hk : k = r
    · simp [mapSet, mapKeys, hk]
    · have hm : r ∈ mapKeys m := by
        simp only [mapKeys, List.map_cons, List.mem_cons] at h
        rcases h with h | h
        · exact absurd h.symm hk
        · exact h
      have := ih hm
      simp only [mapKeys] at this
      simp [mapSet, mapKeys, hk, this]

/-! ## Lemmas on `flushBatch`, `addMessage` and `flushAllBatches` -/

theorem delivered_emit_same {α : Type} (room : String) (bm : BatchManager α)
    (b : Batch α) (bs : List (String × List α)) :
    delivered room { bm with emitted := bm.emitted ++ [(room, b)], batches := bs }
      = delivered room bm ++ b.data := by
  simp [delivered, batchesFor, List.filter_append]

theorem delivered_emit_ne {α : Type} (room r : String) (bm : BatchManager α)
    (b : Batch α) (bs : List (String × List α)) (h : r ≠ room) :
    delivered room { bm with emitted := bm.emitted ++ [(r, b)], batches := bs }
      = delivered room bm := by
  simp [delivered, batchesFor, List.filter_append, h]

theorem pending_flushBatch {α : Type} (room r : String) (bm : BatchManager α) :
    pending room (flushBatch r bm) = if r = room then [] else pending room bm := by
  unfold flushBatch
  cases hg : mapGet bm.batches r with
  | none =>
    by_cases h : r = room
    · subst h
      simp [pending, hg]
    · simp [h]
  | some batch =>
    by_cases hl : batch.length = 0
    · by_cases h : r = room
      · subst h
        have : batch = [] := List.length_eq_zero.mp hl
        simp [pending, hg, hl, this]
      · simp [hl, h]
    · by_cases h : r = room
      · subst h
        simp [pending, hl, mapGet_mapSet_same]
      · simp [pending, hl, h, mapGet_mapSet_ne _ _ _ _ h]

theorem history_flushBatch {α : Type} (room r : String) (bm : BatchManager α) :
    history room (flushBatch r bm) = history room bm := by
  unfold flushBatch
  cases hg : mapGet bm.batches r with
  | none => rfl
  | some batch =>
    by_cases hl : batch.length = 0
    · simp [hl]
    · simp only [hl, if_false]
      by_cases h : r = room
      · subst h
        simp only [history, delivered_emit_same]
        simp [pending, hg, mapGet_mapSet_same]
      · simp only [history, delivered_emit_ne _ _ _ _ _ h]
        simp [pending, mapGet_mapSet_ne _ _ _ _ h]

/-- The buffer `addMessage` pushes onto, after the lazy creation of the room. -/
theorem mapGet_lazy {α : Type} (room r : String) (m : List (String × List α)) :
    (mapGet (if !mapHas m r then mapSet m r [] else m) room).getD []
      = (mapGet m room).getD [] := by
  cases hg : mapGet m r with
  | none =>
    by_cases h : r = room
    · subst h
      simp [mapHas, hg, mapGet_mapSet_same]
    · simp [mapHas, hg, mapGet_mapSet_ne _ _ _ _ h]
  | some b => simp [mapHas, hg]

theorem addMessage_eq {α : Type} (room : String) (message : α) (bm : BatchManager α) :
    addMessage room message bm =
      if (pending room bm).length + 1 ≥ CONFIG.batchSize
      then flushBatch room (pushed room message bm) else pushed room message bm := by
  simp only [addMessage, pushed, pending, mapGet_lazy, List.length_append, List.length_singleton]

theorem pending_pushed_same {α : Type} (room : String) (message : α) (bm : BatchManager α) :
    pending room (pushed room message bm) = pending room bm ++ [message] := by
  simp only [pending, pushed, mapGet_mapSet_same, Option.getD_some, mapGet_lazy]

theorem pending_pushed_ne {α : Type} (room r : String) (message : α) (bm : BatchManager α)
    (h : r ≠ room) : pending room (pushed r message bm) = pending room bm := by
  simp only [pending, pushed, mapGet_mapSet_ne _ _ _ _ h]
  exact mapGet_lazy room r bm.batches

theorem emitted_pushed {α : Type} (room : String) (message : α) (bm : BatchManager α) :
    (pushed room message bm).emitted = bm.emitted := rfl

theorem dbWriteQueue_pushed {α : Type} (room : String) (message : α) (bm : BatchManager α) :
    (pushed room message bm).dbWriteQueue = bm.dbWriteQueue ++ [message] := rfl

theorem history_pushed {α : Type} (room r : String) (message : α) (bm : BatchManager α) :
    history room (pushed r message bm)
      = history room bm ++ (if r = room then [message] else []) := by
  have hd : delivered room (pushed r message bm) = delivered room bm := rfl
  by_cases h : r = room
  · subst h
    simp [history, hd, pending_pushed_same]
  · simp [history, hd, pending_pushed_ne _ _ _ _ h, h]

theorem history_addMessage {α : Type} (room r : String) (message : α) (bm : BatchManager α) :
    history room (addMessage r message bm)
      = history room bm ++ (if r = room then [message] else []) := by
  rw [addMessage_eq]
  split
  · rw [history_flushBatch, history_pushed]
  · rw [history_pushed]

theorem history_foldl_flushBatch {α : Type} (room : String) (ks : List String)
    (bm : BatchManager α) :
    history room (ks.foldl (fun s r => flushBatch r s) bm) = history room bm := by
  induction ks generalizing bm with
  | nil => rfl
  | cons k ks ih => rw [List.foldl_cons, ih, history_flushBatch]

theorem pending_foldl_flushBatch {α : Type} (room : String) (ks : List String)
    (bm : BatchManager α) :
    pending room (ks.foldl (fun s r => flushBatch r s) bm)
      = if room ∈ ks then [] else pending room bm := by
  induction ks generalizing bm with
  | nil => simp
  | cons k ks ih =>
    rw [List.foldl_cons, ih, pending_flushBatch]
    by_cases h1 : room ∈ ks
    · simp [h1]
    · by_cases h2 : k = room
      · simp [h2]
      · have h3 : ¬ room = k := fun e => h2 e.symm
        simp [h1, h2, h3]

theorem history_flushAllBatches {α : Type} (room : String) (bm : BatchManager α) :
    history room (flushAllBatches bm) = history room bm :=
  history_foldl_flushBatch room _ bm

theorem pending_flushAllBatches {α : Type} (room : String) (bm : BatchManager α) :
    pending room (flushAllBatches bm) = [] := by
  unfold flushAllBatches
  rw [pending_foldl_flushBatch]
  split
  · rfl
  · rename_i h
    simp [pending, mapGet_eq_none_of_not_mem _ _ h]

theorem history_run {α : Type} (room : String) (ops : List (Op α)) (bm : BatchManager α) :
    history room (run ops bm) = history room bm ++ appended room ops := by
  induction ops generalizing bm with
  | nil => simp [run, appended]
  | cons op ops ih =>
    have hrun : run (op :: ops) bm = run ops (op.step bm) := rfl
    rw [hrun, ih]
    cases op with
    | addMessage r message =>
      simp only [Op.step, history_addMessage, appended]
      by_cases h : r = room
      · simp [h]
      · simp [h]
    | tick => simp only [Op.step, history_flushAllBatches, appended]

theorem delivered_flushAllBatches {α : Type} (room : String) (bm : BatchManager α) :
    delivered room (flushAllBatches bm) = history room bm := by
  have h := history_flushAllBatches room bm
  rw [history, pending_flushAllBatches, List.append_nil] at h
  exact h

theorem sum_length_batchesFor {α : Type} (room : String) (bm : BatchManager α) :
    ((batchesFor room bm).map (fun b => b.data.length)).sum = (delivered room bm).length := by
  simp [delivered, List.length_flatten, Function.comp_def]

/-! ## C1: no loss, no duplication, order kept -/

/-- C1: for every sequence of `addMessage` calls and timer ticks run on a fresh
batch manager and followed by one final tick, the batches emitted for a room,
concatenated in emission order, are exactly the messages appended to that room in
append order; their lengths sum to the number of appended messages, and the buffer
of the room is empty. -/
theorem batches_deliver_every_message_once {α : Type} (ops : List (Op α)) (room : String) :
    delivered room (flushAllBatches (run ops BatchManager.new)) = appended room ops
    ∧ ((batchesFor room (flushAllBatches (run ops BatchManager.new))).map
        (fun b => b.data.length)).sum = (appended room ops).length
    ∧ pending room (flushAllBatches (run ops BatchManager.new)) = [] := by
  have hd : delivered room (flushAllBatches (run ops BatchManager.new))
      = appended room ops := by
    rw [delivered_flushAllBatches, history_run]
    simp [history, delivered, batchesFor, pending, BatchManager.new, mapGet]
  refine ⟨hd, ?_, pending_flushAllBatches room _⟩
  rw [sum_length_batchesFor, hd]

/-! ## Lemmas on the write queue -/

theorem dbWriteQueue_flushBatch {α : Type} (r : String) (bm : BatchManager α) :
    (flushBatch r bm).dbWriteQueue = bm.dbWriteQueue := by
  unfold flushBatch
  split
  · rfl
  · split <;> rfl

theorem storeCalls_flushBatch {α : Type} (r : String) (bm : BatchManager α) :
    (flushBatch r bm).storeCalls = bm.storeCalls := by
  unfold flushBatch
  split
  · rfl
  · split <;> rfl

theorem dbWriteQueue_addMessage {α : Type} (r : String) (message : α) (bm : BatchManager α) :
    (addMessage r message bm).dbWriteQueue = bm.dbWriteQueue ++ [message] := by
  rw [addMessage_eq]
  split
  · rw [dbWriteQueue_flushBatch, dbWriteQueue_pushed]
  · rw [dbWriteQueue_pushed]

theorem storeCalls_addMessage {α : Type} (r : String) (message : α) (bm : BatchManager α) :
    (addMessage r message bm).storeCalls = bm.storeCalls := by
  rw [addMessage_eq]
  split
  · rw [storeCalls_flushBatch]; rfl
  · rfl

theorem dbWriteQueue_flushAllBatches {α : Type} (bm : BatchManager α) :
    (flushAllBatches bm).dbWriteQueue = bm.dbWriteQueue := by
  unfold flushAllBatches
  generalize mapKeys bm.batches = ks
  induction ks generalizing bm with
  | nil => rfl
  | cons k ks ih => rw [List.foldl_cons, ih, dbWriteQueue_flushBatch]

theorem storeCalls_flushAllBatches {α : Type} (bm : BatchManager α) :
    (flushAllBatches bm).storeCalls = bm.storeCalls := by
  unfold flushAllBatches
  generalize mapKeys bm.batches = ks
  induction ks generalizing bm with
  | nil => rfl
  | cons k ks ih => rw [List.foldl_cons, ih, storeCalls_flushBatch]

theorem dbWriteQueue_run {α : Type} (ops : List (Op α)) (bm : BatchManager α) :
    (run ops bm).dbWriteQueue = bm.dbWriteQueue ++ enqueued ops := by
  induction ops generalizing bm with
  | nil => simp [run, enqueued]
  | cons op ops ih =>
    have hrun : run (op :: ops) bm = run ops (op.step bm) := rfl
    rw [hrun, ih]
    cases op with
    | addMessage r message => simp [Op.step, dbWriteQueue_addMessage, enqueued]
    | tick => simp [Op.step, dbWriteQueue_flushAllBatches, enqueued]

theorem storeCalls_run {α : Type} (ops : List (Op α)) (bm : BatchManager α) :
    (run ops bm).storeCalls = bm.storeCalls := by
  induction ops generalizing bm with
  | nil => rfl
  | cons op ops ih =>
    have hrun : run (op :: ops) bm = run ops (op.step bm) := rfl
    rw [hrun, ih]
    cases op with
    | addMessage r message => simp [Op.step, storeCalls_addMessage]
    | tick => simp [Op.step, storeCalls_flushAllBatches]

theorem asObjects_eq_some {ds : List Data} {msgs : List Msg} (h : asObjects ds = some msgs) :
    ds = msgs.map Data.obj := by
  induction ds generalizing msgs with
  | nil =>
    simp only [asObjects, Option.some.injEq] at h
    subst h; rfl
  | cons d ds ih =>
    cases d with
    | null => simp [asObjects] at h
    | obj m =>
      simp only [asObjects, Option.map_eq_some'] at h
      obtain ⟨ms, hms, rfl⟩ := h
      rw [List.map_cons, ← ih hms]

/-- The write queue after a flush whose store call fails. -/
theorem dbWriteQueue_flush_of_storeFails (store : Store) (during : List (Op Data))
    (bm : BatchManager Data) (h : storeFails store bm.dbWriteQueue = true) :
    (flushDBQueue store during bm).dbWriteQueue = enqueued during ++ bm.dbWriteQueue := by
  unfold storeFails at h
  cases ho : asObjects bm.dbWriteQueue with
  | none => simp [ho] at h
  | some msgs =>
    rw [ho] at h
    have hp : (persist store msgs).2 = false := by simpa using h
    have hne : ¬ bm.dbWriteQueue.length = 0 := by
      intro h0
      have hnil : bm.dbWriteQueue = [] := List.length_eq_zero.mp h0
      rw [hnil] at ho
      simp only [asObjects, Option.some.injEq] at ho
      subst ho
      simp [persist, uniqueSensors, setOf, upsertLoop] at hp
    simp only [flushDBQueue, hne, if_false, ho, hp, dbWriteQueue_run, List.nil_append]
    simp

/-! ## C2, C3: the metadata upsert -/

/-- C2 (evaluation of the code): a flush of a snapshot holding three events of
sensor 7 issues one upsert for sensor 7 whose `$inc` adds 1 to `totalReadings`,
although the snapshot holds 3 events of that sensor. -/
theorem upsert_increments_totalReadings_by_one :
    ((upsertsOf (flushDBQueue acceptAll [] (withQueue (snapshot7.map Data.obj))).storeCalls).map
        (fun p => (p.1, p.2.inc))) = [(JsVal.num 7, [("totalReadings", 1)])]
    ∧ (snapshot7.filter (fun m => decide (m.sensorId = JsVal.num 7))).length = 3 := by
  decide

/-- C3 (evaluation of the code): a flush of a snapshot holding events of kinds
temperature, humidity, pressure for sensor 7 writes, in `$set`, the descriptive
fields of the first event (temperature, edge 1, active) and not those of the
last one (pressure, edge 3, failed). -/
theorem upsert_sets_fields_of_first_event :
    ((upsertsOf (flushDBQueue acceptAll [] (withQueue (snapshot7.map Data.obj))).storeCalls).map
        (fun p => (p.1, p.2.set)))
      = [(JsVal.num 7, (updateOf (sample 7 "temperature" 1 "active")).set)]
    ∧ (updateOf (sample 7 "temperature" 1 "active")).set
      = [("sensorType", .val (.str "temperature")), ("edgeId", .val (.num 1)),
          ("lastSeen", .now), ("status", .val (.str "active"))]
    ∧ (updateOf (sample 7 "pressure" 3 "failed")).set
      = [("sensorType", .val (.str "pressure")), ("edgeId", .val (.num 3)),
          ("lastSeen", .now), ("status", .val (.str "failed"))] := by
  decide

/-! ## C4: where a failed snapshot is put back -/

/-- C4 (as stated, refuted): with the queue holding one event of sensor 1 and one
event of sensor 2 enqueued while the bulk insert is awaited, the failed flush
leaves the event of sensor 2 first: the snapshot is not ahead of it. -/
theorem requeued_snapshot_is_not_at_front :
    storeFails rejectInsert [Data.obj (sample 1 "temperature" 1 "active")] = true
    ∧ (flushDBQueue rejectInsert
          [Op.addMessage "sensors:all" (Data.obj (sample 2 "humidity" 1 "active"))]
          (withQueue [Data.obj (sample 1 "temperature" 1 "active")])).dbWriteQueue
        = [Data.obj (sample 2 "humidity" 1 "active"), Data.obj (sample 1 "temperature" 1 "active")]
    ∧ (flushDBQueue rejectInsert
          [Op.addMessage "sensors:all" (Data.obj (sample 2 "humidity" 1 "active"))]
          (withQueue [Data.obj (sample 1 "temperature" 1 "active")])).dbWriteQueue
        ≠ [Data.obj (sample 1 "temperature" 1 "active")]
            ++ enqueued [Op.addMessage "sensors:all" (Data.obj (sample 2 "humidity" 1 "active"))] := by
  decide

/-- C4 (amended): when the bulk insert or an upsert fails, the write queue after
the flush is the events enqueued while the flush was in progress followed by the
whole snapshot in its original order: the snapshot is put back at the end. -/
theorem failed_flush_requeues_snapshot_at_end (store : Store) (during : List (Op Data))
    (bm : BatchManager Data) (h : storeFails store bm.dbWriteQueue = true) :
    (flushDBQueue store during bm).dbWriteQueue = enqueued during ++ bm.dbWriteQueue :=
  dbWriteQueue_flush_of_storeFails store during bm h

theorem failed_flush_requeues_snapshot_at_end_witness :
    storeFails rejectInsert (withQueue [Data.obj (sample 1 "temperature" 1 "active")]).dbWriteQueue
      = true
    ∧ (flushDBQueue rejectInsert
          [Op.addMessage "sensors:all" (Data.obj (sample 2 "humidity" 1 "active")), Op.tick]
          (withQueue [Data.obj (sample 1 "temperature" 1 "active")])).dbWriteQueue
        = enqueued [Op.addMessage "sensors:all" (Data.obj (sample 2 "humidity" 1 "active")), Op.tick]
            ++ (withQueue [Data.obj (sample 1 "temperature" 1 "active")]).dbWriteQueue :=
  ⟨by decide, failed_flush_requeues_snapshot_at_end rejectInsert _ _ (by decide)⟩

/-! ## C5: one message, four queue entries -/

/-- C5 (evaluation of the code): handling one message whose JSON is an object
appends four copies of it to the write queue, one per `addMessage` call. -/
theorem onMessage_enqueues_four_copies (m : Msg) (bm : BatchManager Data) :
    (onMessage (some (Data.obj m)) bm).dbWriteQueue
      = bm.dbWriteQueue ++ [Data.obj m, Data.obj m, Data.obj m, Data.obj m] := by
  simp [onMessage, dbWriteQueue_addMessage]

/-! ## C6: a failed flush drops nothing -/

theorem persist_fst_of_succeeds (store : Store) (msgs : List Msg) (hne : msgs ≠ [])
    (h : (persist store msgs).2 = true) :
    (persist store msgs).1 = StoreCall.insertMany (msgs.map toReading)
      :: (upsertLoop store msgs (uniqueSensors msgs)).1 := by
  have hpos : 0 < msgs.length := List.length_pos.mpr hne
  by_cases hi : store.insertMany (msgs.map toReading) = false
  · simp [persist, hpos, hi] at h
  · simp [persist, hpos, hi]

theorem storeCalls_flush_of_succeeds (store : Store) (during : List (Op Data))
    (bm : BatchManager Data) (hne : bm.dbWriteQueue ≠ [])
    (h : flushSucceeds store bm.dbWriteQueue = true) :
    ∃ (msgs : List Msg) (rest : List StoreCall), msgs.map Data.obj = bm.dbWriteQueue
      ∧ (flushDBQueue store during bm).storeCalls
          = bm.storeCalls ++ StoreCall.insertMany (msgs.map toReading) :: rest
      ∧ (flushDBQueue store during bm).dbWriteQueue = enqueued during := by
  unfold flushSucceeds at h
  cases ho : asObjects bm.dbWriteQueue with
  | none => simp [ho] at h
  | some msgs =>
    rw [ho] at h
    replace h : (persist store msgs).2 = true := h
    have hq := asObjects_eq_some ho
    have hm : msgs ≠ [] := by
      intro e; rw [e] at hq; exact hne hq
    have hl : ¬ bm.dbWriteQueue.length = 0 := fun e => hne (List.length_eq_zero.mp e)
    refine ⟨msgs, (upsertLoop store msgs (uniqueSensors msgs)).1, hq.symm, ?_, ?_⟩
    · simp only [flushDBQueue, hl, if_false, ho, h, if_true, storeCalls_run,
        persist_fst_of_succeeds store msgs hm h]
    · simp only [flushDBQueue, hl, if_false, ho, h, if_true, dbWriteQueue_run, List.nil_append]

theorem asObjects_eq_none_of_null_mem (queue : List Data) (h : Data.null ∈ queue) :
    asObjects queue = none := by
  induction queue with
  | nil => simp at h
  | cons d ds ih =>
    cases d with
    | null => rfl
    | obj m =>
      have hds : Data.null ∈ ds := by simpa using h
      simp [asObjects, ih hds]

theorem null_not_mem_of_asObjects (queue : List Data) (msgs : List Msg)
    (h : asObjects queue = some msgs) : Data.null ∉ queue := by
  intro hn
  rw [asObjects_eq_none_of_null_mem queue hn] at h
  exact Option.noConfusion h

/-- The write queue after a flush that throws on a `null` message. -/
theorem dbWriteQueue_flush_of_null (store : Store) (during : List (Op Data))
    (bm : BatchManager Data) (h : Data.null ∈ bm.dbWriteQueue) :
    (flushDBQueue store during bm).dbWriteQueue = bm.dbWriteQueue := by
  have hne : ¬ bm.dbWriteQueue.length = 0 := by
    intro h0
    rw [List.length_eq_zero.mp h0] at h
    simp at h
  simp only [flushDBQueue, hne, if_false, asObjects_eq_none_of_null_mem _ h, List.nil_append]

theorem toReading_eq (m : Msg) :
    toReading m = ⟨m.sensorId, m.sensorType, m.value, m.edgeId, m.timestamp,
      if m.status = JsVal.undefined ∨ m.status = JsVal.null ∨ m.status = JsVal.bool false
          ∨ m.status = JsVal.num 0 ∨ m.status = JsVal.str ""
        then JsVal.str "active" else m.status⟩ := by
  unfold toReading orActive
  congr 1
  cases hs : m.status with
  | undefined => simp [JsVal.truthy]
  | null => simp [JsVal.truthy]
  | bool b => cases b <;> simp [JsVal.truthy]
  | num n =>
    by_cases hn : n = 0
    · simp [JsVal.truthy, hn]
    · simp [JsVal.truthy, hn]
  | str s =>
    by_cases hn : s = ""
    · simp [JsVal.truthy, hn]
    · simp [JsVal.truthy, hn]

/-- C6: a failed flush loses no event, whether it fails on a `null` message
(`TypeError` before the first `await`, so nothing is enqueued meanwhile) or on a
rejected bulk insert or upsert: the write queue afterwards holds the snapshot and
the events enqueued during the flush, each as many times as before. A following
flush that succeeds hands the bulk insert one document per queued event, in queue
order, carrying the event's `sensorId`, `sensorType`, `value`, `edgeId`,
`timestamp` and `status || 'active'`, and leaves in the queue only what was
enqueued during it. -/
theorem failed_flush_drops_no_event (store : Store) (during : List (Op Data))
    (bm : BatchManager Data)
    (hfail : Data.null ∈ bm.dbWriteQueue ∨ storeFails store bm.dbWriteQueue = true) :
    List.Perm (flushDBQueue store during bm).dbWriteQueue
      (bm.dbWriteQueue ++ enqueued (if Data.null ∈ bm.dbWriteQueue then [] else during))
    ∧ ∀ (store2 : Store) (during2 : List (Op Data)),
        flushSucceeds store2 (flushDBQueue store during bm).dbWriteQueue = true →
        ∃ (msgs : List Msg) (rest : List StoreCall),
          msgs.map Data.obj = (flushDBQueue store during bm).dbWriteQueue
          ∧ List.Perm (msgs.map Data.obj) (bm.dbWriteQueue ++ enqueued during)
          ∧ (flushDBQueue store2 during2 (flushDBQueue store during bm)).storeCalls
              = (flushDBQueue store during bm).storeCalls
                  ++ StoreCall.insertMany (msgs.map (fun m =>
                      ⟨m.sensorId, m.sensorType, m.value, m.edgeId, m.timestamp,
                        if m.status = JsVal.undefined ∨ m.status = JsVal.null
                            ∨ m.status = JsVal.bool false ∨ m.status = JsVal.num 0
                            ∨ m.status = JsVal.str ""
                          then JsVal.str "active" else m.status⟩)) :: rest
          ∧ (flushDBQueue store2 during2 (flushDBQueue store during bm)).dbWriteQueue
              = enqueued during2 := by
  have hperm : List.Perm (flushDBQueue store during bm).dbWriteQueue
      (bm.dbWriteQueue ++ enqueued (if Data.null ∈ bm.dbWriteQueue then [] else during)) := by
    by_cases hn : Data.null ∈ bm.dbWriteQueue
    · rw [dbWriteQueue_flush_of_null store during bm hn, if_pos hn]
      simp [enqueued]
    · have hs : storeFails store bm.dbWriteQueue = true := hfail.resolve_left hn
      rw [dbWriteQueue_flush_of_storeFails store during bm hs, if_neg hn]
      exact List.perm_append_comm
  have hq1 : bm.dbWriteQueue ≠ [] := by
    intro e
    rw [e] at hfail
    simp [storeFails, asObjects, persist, uniqueSensors, setOf, upsertLoop] at hfail
  have hne : (flushDBQueue store during bm).dbWriteQueue ≠ [] := by
    intro e
    rw [e] at hperm
    have := hperm.length_eq
    simp only [List.length_nil, List.length_append] at this
    have hpos : 0 < bm.dbWriteQueue.length := List.length_pos.mpr hq1
    omega
  refine ⟨hperm, ?_⟩
  intro store2 during2 hnext
  obtain ⟨msgs, rest, h1, h2, h3⟩ :=
    storeCalls_flush_of_succeeds store2 during2 (flushDBQueue store during bm) hne hnext
  have hnonull : Data.null ∉ bm.dbWriteQueue := by
    intro hn
    have hq := dbWriteQueue_flush_of_null store during bm hn
    rw [hq, flushSucceeds, asObjects_eq_none_of_null_mem _ hn] at hnext
    exact Bool.noConfusion hnext
  rw [if_neg hnonull] at hperm
  have hmap : msgs.map toReading = msgs.map (fun m =>
      (⟨m.sensorId, m.sensorType, m.value, m.edgeId, m.timestamp,
        if m.status = JsVal.undefined ∨ m.status = JsVal.null
            ∨ m.status = JsVal.bool false ∨ m.status = JsVal.num 0
            ∨ m.status = JsVal.str ""
          then JsVal.str "active" else m.status⟩ : Reading)) :=
    List.map_congr_left (fun m _ => toReading_eq m)
  refine ⟨msgs, rest, h1, by rw [h1]; exact hperm, ?_, h3⟩
  rw [h2, hmap]

theorem failed_flush_drops_no_event_witness :
    (Data.null ∈ (withQueue [Data.obj (sample 1 "temperature" 1 "active")]).dbWriteQueue
      ∨ storeFails rejectInsert
          (withQueue [Data.obj (sample 1 "temperature" 1 "active")]).dbWriteQueue = true)
    ∧ List.Perm
        (flushDBQueue rejectInsert
          [Op.addMessage "sensors:all" (Data.obj (sample 2 "humidity" 1 "active"))]
          (withQueue [Data.obj (sample 1 "temperature" 1 "active")])).dbWriteQueue
        ((withQueue [Data.obj (sample 1 "temperature" 1 "active")]).dbWriteQueue
          ++ enqueued (if Data.null
                ∈ (withQueue [Data.obj (sample 1 "temperature" 1 "active")]).dbWriteQueue
              then []
              else [Op.addMessage "sensors:all" (Data.obj (sample 2 "humidity" 1 "active"))]))
    ∧ flushSucceeds acceptAll
        (flushDBQueue rejectInsert
          [Op.addMessage "sensors:all" (Data.obj (sample 2 "humidity" 1 "active"))]
          (withQueue [Data.obj (sample 1 "temperature" 1 "active")])).dbWriteQueue = true
    ∧ (Data.null
          ∈ (withQueue [Data.obj (sample 1 "temperature" 1 "active"), Data.null]).dbWriteQueue
        ∨ storeFails acceptAll
            (withQueue [Data.obj (sample 1 "temperature" 1 "active"), Data.null]).dbWriteQueue
              = true)
    ∧ List.Perm
        (flushDBQueue acceptAll []
          (withQueue [Data.obj (sample 1 "temperature" 1 "active"), Data.null])).dbWriteQueue
        ((withQueue [Data.obj (sample 1 "temperature" 1 "active"), Data.null]).dbWriteQueue
          ++ enqueued (if Data.null
                ∈ (withQueue [Data.obj (sample 1 "temperature" 1 "active"),
                    Data.null]).dbWriteQueue
              then [] else [])) :=
  ⟨by decide,
    (failed_flush_drops_no_event rejectInsert _ _ (by decide)).1,
    by decide, by decide,
    (failed_flush_drops_no_event acceptAll [] _ (by decide)).1⟩

/-! ## C7 -/

theorem emitted_flushBatch_of_pending {α : Type} (room : String) (bm : BatchManager α)
    (h : pending room bm ≠ []) :
    (flushBatch room bm).emitted
      = bm.emitted ++ [(room, ⟨pending room bm, (pending room bm).length⟩)] := by
  unfold flushBatch
  cases hg : mapGet bm.batches room with
  | none => simp [pending, hg] at h
  | some batch =>
    have hb : pending room bm = batch := by simp [pending, hg]
    rw [hb] at h ⊢
    have hl : ¬ batch.length = 0 := fun e => h (List.length_eq_zero.mp e)
    simp [hl]

theorem foldl_addMessage_below {α : Type} (room : String) (es : List α) :
    ∀ bm : BatchManager α, (pending room bm).length + es.length < CONFIG.batchSize →
      (es.foldl (fun s e => addMessage room e s) bm).emitted = bm.emitted
      ∧ pending room (es.foldl (fun s e => addMessage room e s) bm) = pending room bm ++ es := by
  induction es with
  | nil => intro bm _; simp
  | cons e es ih =>
    intro bm h
    rw [List.length_cons] at h
    have hlt : ¬ (pending room bm).length + 1 ≥ CONFIG.batchSize := by omega
    have hadd : addMessage room e bm = pushed room e bm := by
      rw [addMessage_eq, if_neg hlt]
    rw [List.foldl_cons, hadd]
    have hp := pending_pushed_same room e bm
    have := ih (pushed room e bm) (by rw [hp, List.length_append, List.length_singleton]; omega)
    rw [this.1, this.2, hp, emitted_pushed]
    simp

theorem addMessage_at_threshold {α : Type} (room : String) (e : α) (bm : BatchManager α)
    (h : (pending room bm).length + 1 ≥ CONFIG.batchSize) :
    (addMessage room e bm).emitted
        = bm.emitted ++ [(room, ⟨pending room bm ++ [e], (pending room bm).length + 1⟩)]
    ∧ pending room (addMessage room e bm) = [] := by
  rw [addMessage_eq, if_pos h]
  have hp := pending_pushed_same room e bm
  have hne : pending room (pushed room e bm) ≠ [] := by rw [hp]; simp
  constructor
  · rw [emitted_flushBatch_of_pending room _ hne, hp, emitted_pushed]
    simp
  · rw [pending_flushBatch]; simp

/-- C7: from an empty (or absent) buffer for a room, `batchSize = 50` consecutive
`addMessage` calls on that room make exactly one emit: none of the first 49 calls
emits, the 50th emits one batch whose data are the 50 messages in order with
`count` 50, and the buffer of the room is empty afterwards. -/
theorem full_batch_flushes_once {α : Type} (room : String) (es : List α) (bm : BatchManager α)
    (hempty : pending room bm = []) (hlen : es.length = CONFIG.batchSize) :
    CONFIG.batchSize = 50
    ∧ (es.foldl (fun s e => addMessage room e s) bm).emitted = bm.emitted ++ [(room, ⟨es, 50⟩)]
    ∧ pending room (es.foldl (fun s e => addMessage room e s) bm) = []
    ∧ ∀ k, k < 50 →
        ((es.take k).foldl (fun s e => addMessage room e s) bm).emitted = bm.emitted := by
  have h50 : CONFIG.batchSize = 50 := rfl
  rw [h50] at hlen
  have hne : es ≠ [] := by
    intro e; rw [e] at hlen; simp at hlen
  have hsplit := List.dropLast_append_getLast hne
  have hdl : es.dropLast.length = 49 := by rw [List.length_dropLast, hlen]
  have hbelow := foldl_addMessage_below room es.dropLast bm (by rw [hempty, hdl, h50]; simp)
  rw [hempty, List.nil_append] at hbelow
  have hthr := addMessage_at_threshold room (es.getLast hne)
    (es.dropLast.foldl (fun s e => addMessage room e s) bm)
    (by rw [hbelow.2, hdl, h50])
  have hfold : es.foldl (fun s e => addMessage room e s) bm
      = addMessage room (es.getLast hne) (es.dropLast.foldl (fun s e => addMessage room e s) bm) := by
    conv_lhs => rw [← hsplit]
    rw [List.foldl_append]; rfl
  refine ⟨h50, ?_, ?_, ?_⟩
  · rw [hfold, hthr.1, hbelow.1, hbelow.2, hsplit, hdl]
  · rw [hfold, hthr.2]
  · intro k hk
    refine (foldl_addMessage_below room (es.take k) bm ?_).1
    rw [hempty, List.length_take, h50]
    simp only [List.length_nil, zero_add]
    omega

theorem full_batch_flushes_once_witness :
    pending "sensors:all" (BatchManager.new : BatchManager Nat) = []
    ∧ (List.range 50).length = CONFIG.batchSize
    ∧ ((List.range 50).foldl (fun s e => addMessage "sensors:all" e s) BatchManager.new).emitted
        = (BatchManager.new : BatchManager Nat).emitted ++ [("sensors:all", ⟨List.range 50, 50⟩)] :=
  ⟨rfl, rfl, (full_batch_flushes_once "sensors:all" (List.range 50) BatchManager.new rfl rfl).2.1⟩

/-! ## C8: what a tick does to one room -/

theorem batchesFor_flushBatch {α : Type} (room r : String) (bm : BatchManager α) :
    batchesFor room (flushBatch r bm)
      = batchesFor room bm ++
          (if r = room ∧ (pending room bm).isEmpty = false
            then [⟨pending room bm, (pending room bm).length⟩] else []) := by
  unfold flushBatch
  cases hg : mapGet bm.batches r with
  | none =>
    by_cases h : r = room
    · subst h; simp [pending, hg]
    · simp [h]
  | some batch =>
    by_cases hl : batch.length = 0
    · have hb : batch = [] := List.length_eq_zero.mp hl
      by_cases h : r = room
      · subst h; simp [pending, hg, hb]
      · simp [h, hl]
    · have hb : batch ≠ [] := fun e => hl (by rw [e]; rfl)
      by_cases h : r = room
      · subst h
        simp [pending, hg, hl, hb, batchesFor, List.filter_append]
      · simp [h, hl, batchesFor, List.filter_append]

theorem mapGet_flushBatch {α : Type} (room r : String) (bm : BatchManager α) :
    mapGet (flushBatch r bm).batches room
      = if r = room then (mapGet bm.batches room).map (fun _ => []) else mapGet bm.batches room := by
  unfold flushBatch
  cases hg : mapGet bm.batches r with
  | none =>
    by_cases h : r = room
    · subst h; simp [hg]
    · simp [h]
  | some batch =>
    by_cases hl : batch.length = 0
    · have hb : batch = [] := List.length_eq_zero.mp hl
      by_cases h : r = room
      · subst h; simp [hg, hb]
      · simp [h, hl]
    · by_cases h : r = room
      · subst h
        simp [hg, hl, mapGet_mapSet_same]
      · simp [h, hl, mapGet_mapSet_ne _ _ _ _ h]

theorem batchesFor_foldl_flushBatch {α : Type} (room : String) (ks : List String) :
    ∀ bm : BatchManager α,
      batchesFor room (ks.foldl (fun s r => flushBatch r s) bm)
        = batchesFor room bm ++
            (if room ∈ ks ∧ (pending room bm).isEmpty = false
              then [⟨pending room bm, (pending room bm).length⟩] else []) := by
  induction ks with
  | nil => intro bm; simp
  | cons k ks ih =>
    intro bm
    rw [List.foldl_cons, ih, batchesFor_flushBatch, pending_flushBatch]
    by_cases h : k = room
    · subst h
      by_cases he : (pending k bm).isEmpty = true <;> simp [he]
    · have h' : ¬ room = k := fun e => h e.symm
      simp only [if_neg h]
      by_cases hm : room ∈ ks <;> by_cases he : (pending room bm).isEmpty = true <;>
        simp [h, h', hm, he]

theorem mapGet_foldl_flushBatch {α : Type} (room : String) (ks : List String) :
    ∀ bm : BatchManager α,
      mapGet (ks.foldl (fun s r => flushBatch r s) bm).batches room
        = if room ∈ ks then (mapGet bm.batches room).map (fun _ => [])
          else mapGet bm.batches room := by
  induction ks with
  | nil => intro bm; simp
  | cons k ks ih =>
    intro bm
    rw [List.foldl_cons, ih, mapGet_flushBatch]
    by_cases h : k = room
    · subst h
      by_cases hm : k ∈ ks
      · cases mapGet bm.batches k <;> simp [hm]
      · simp [hm]
    · have h' : ¬ room = k := fun e => h e.symm
      simp [h, h']

/-- C8: a tick emits, for a room whose buffer holds `k > 0` events, exactly one
batch, holding those `k` events in order with `count = k`, and leaves that buffer
empty; for a room whose buffer is empty or absent it emits nothing and leaves the
binding of the room as it was (empty, or absent). -/
theorem tick_flushes_each_room_once {α : Type} (bm : BatchManager α) (room : String) :
    batchesFor room (flushAllBatches bm)
      = batchesFor room bm ++
          (if (pending room bm).isEmpty then []
            else [⟨pending room bm, (pending room bm).length⟩])
    ∧ pending room (flushAllBatches bm) = []
    ∧ mapGet (flushAllBatches bm).batches room
        = (mapGet bm.batches room).map (fun _ => []) := by
  refine ⟨?_, pending_flushAllBatches room bm, ?_⟩
  · unfold flushAllBatches
    rw [batchesFor_foldl_flushBatch]
    by_cases hk : room ∈ mapKeys bm.batches
    · by_cases he : (pending room bm).isEmpty = true
      · simp [hk, he]
      · simp [hk, he]
    · have hp : pending room bm = [] := by
        simp [pending, mapGet_eq_none_of_not_mem _ _ hk]
      simp [hk, hp]
  · unfold flushAllBatches
    rw [mapGet_foldl_flushBatch]
    by_cases hk : room ∈ mapKeys bm.batches
    · simp [hk]
    · simp [hk, mapGet_eq_none_of_not_mem _ _ hk]

/-! ## C9: malformed messages at the bridge -/

/-- C9 (as stated, refuted): a message that carries both `sensorId` and `value`
still raises the error counter by one when the publish to the channel is
rejected. -/
theorem wellformed_message_counted_when_publish_fails :
    (sample 1 "temperature" 1 "active").sensorId.missing = false
    ∧ (sample 1 "temperature" 1 "active").value.missing = false
    ∧ (ingest false (some (Data.obj (sample 1 "temperature" 1 "active")))
          ⟨⟨⟨0, 0, 0⟩, []⟩, BatchManager.new⟩).bridge.stats.errors = 0 + 1
    ∧ (ingest false (some (Data.obj (sample 1 "temperature" 1 "active")))
          ⟨⟨⟨0, 0, 0⟩, []⟩, BatchManager.new⟩).bridge.stats.errors ≠ 0 + 0 := by
  decide

/-- C9 (amended): a message that lacks `value` or `sensorId` is dropped at the
bridge: the server state (every group buffer, the write queue) is unchanged,
nothing is published, and the error counter grows by exactly one. A message
carrying both fields grows the error counter by zero when its publish succeeds,
in which case it is published and handled by the server, and by one when the
publish is rejected. -/
theorem malformed_message_dropped_and_counted (publishOk : Bool) (m : Msg) (sys : System) :
    (ingest publishOk (some (Data.obj m)) sys).bridge.stats.errors
      = sys.bridge.stats.errors
        + (if m.sensorId.missing || m.value.missing then 1 else if publishOk then 0 else 1)
    ∧ (ingest publishOk (some (Data.obj m)) sys).bridge.forwarded
      = sys.bridge.forwarded
        ++ (if m.sensorId.missing || m.value.missing then []
            else if publishOk then [Data.obj m] else [])
    ∧ (ingest publishOk (some (Data.obj m)) sys).server
      = (if m.sensorId.missing || m.value.missing then sys.server
          else if publishOk then onMessage (some (Data.obj m)) sys.server else sys.server) := by
  by_cases hm : (m.sensorId.missing || m.value.missing) = true
  · simp [ingest, bridgeOnMessage, hm]
  · cases publishOk
    · simp [ingest, bridgeOnMessage, hm]
    · simp [ingest, bridgeOnMessage, hm]

/-! ## C10: the four rooms of a valid event -/

theorem digitChar_mem_numChars (n : Nat) (h : n < 10) : Nat.digitChar n ∈ numChars := by
  interval_cases n <;> decide

theorem toDigitsCore_mem_numChars (fuel : Nat) : ∀ (n : Nat) (ds : List Char),
    (∀ c ∈ ds, c ∈ numChars) → ∀ c ∈ Nat.toDigitsCore 10 fuel n ds, c ∈ numChars := by
  induction fuel with
  | zero => intro n ds h c hc; exact h c (by simpa [Nat.toDigitsCore] using hc)
  | succ fuel ih =>
    intro n ds h c hc
    have hd : ∀ c ∈ Nat.digitChar (n % 10) :: ds, c ∈ numChars := by
      intro c hc
      rcases List.mem_cons.mp hc with hc | hc
      · rw [hc]; exact digitChar_mem_numChars _ (Nat.mod_lt _ (by decide))
      · exact h c hc
    simp only [Nat.toDigitsCore] at hc
    split at hc
    · exact hd c hc
    · exact ih _ _ hd c hc

theorem toString_nat_mem_numChars (m : Nat) : ∀ c ∈ (toString m).data, c ∈ numChars := by
  intro c hc
  have e : (toString m).data = Nat.toDigitsCore 10 (m + 1) m [] := rfl
  rw [e] at hc
  exact toDigitsCore_mem_numChars _ _ _ (by simp) c hc

theorem toString_int_mem_numChars (n : Int) : ∀ c ∈ (toString n).data, c ∈ numChars := by
  intro c hc
  cases n with
  | ofNat m =>
    have e : toString (Int.ofNat m) = toString m := rfl
    rw [e] at hc
    exact toString_nat_mem_numChars m c hc
  | negSucc m =>
    have e : toString (Int.negSucc m) = "-" ++ toString (m.succ) := rfl
    rw [e, String.data_append] at hc
    rcases List.mem_append.mp hc with hc | hc
    · have e1 : "-".data = ['-'] := rfl
      rw [e1] at hc
      have : c = '-' := by simpa using hc
      rw [this]; decide
    · exact toString_nat_mem_numChars _ c hc

theorem sensorType_ne_toString (ty : String) (hty : ty ∈ SENSOR_TYPES) (n : Int) :
    ty ≠ toString n := by
  intro h
  have hall := toString_int_mem_numChars n
  rw [← h] at hall
  simp only [SENSOR_TYPES, List.mem_cons, List.mem_singleton, List.not_mem_nil, or_false] at hty
  rcases hty with rfl | rfl | rfl | rfl
  · exact absurd (hall 't' (by decide)) (by decide)
  · exact absurd (hall 'h' (by decide)) (by decide)
  · exact absurd (hall 'p' (by decide)) (by decide)
  · exact absurd (hall 'v' (by decide)) (by decide)

theorem all_ne_edge (s : String) : "sensors:all" ≠ "edge:" ++ s := by
  intro h
  have h2 := congrArg String.data h
  rw [String.data_append] at h2
  have e1 : "sensors:all".data = ['s','e','n','s','o','r','s',':','a','l','l'] := rfl
  have e2 : "edge:".data = ['e','d','g','e',':'] := rfl
  rw [e1, e2] at h2
  simp at h2

theorem all_ne_sensor (s : String) : "sensors:all" ≠ "sensor:" ++ s := by
  intro h
  have h2 := congrArg String.data h
  rw [String.data_append] at h2
  have e1 : "sensors:all".data = ['s','e','n','s','o','r','s',':','a','l','l'] := rfl
  have e2 : "sensor:".data = ['s','e','n','s','o','r',':'] := rfl
  rw [e1, e2] at h2
  simp at h2

theorem edge_ne_sensor (s t : String) : "edge:" ++ s ≠ "sensor:" ++ t := by
  intro h
  have h2 := congrArg String.data h
  rw [String.data_append, String.data_append] at h2
  have e1 : "edge:".data = ['e','d','g','e',':'] := rfl
  have e2 : "sensor:".data = ['s','e','n','s','o','r',':'] := rfl
  rw [e1, e2] at h2
  simp at h2

theorem sensor_key_injective (s t : String) (h : "sensor:" ++ s = "sensor:" ++ t) : s = t := by
  have h2 := congrArg String.data h
  rw [String.data_append, String.data_append] at h2
  exact String.ext (List.append_cancel_left h2)

theorem roomsOf_nodup_of_valid (m : Msg) (hv : m.valid) : (roomsOf m).Nodup := by
  obtain ⟨⟨ty, hty, hst⟩, ⟨i, hi⟩, ⟨e, he⟩⟩ := hv
  have h34 : "sensor:" ++ ty ≠ "sensor:" ++ toString i :=
    fun h => sensorType_ne_toString ty hty i (sensor_key_injective _ _ h)
  simp only [roomsOf, hst, hi, he, JsVal.toStr, List.nodup_cons, List.mem_cons,
    List.mem_singleton, List.not_mem_nil, List.nodup_nil, not_or, not_false_eq_true, and_true]
  exact ⟨⟨all_ne_edge _, all_ne_sensor _, all_ne_sensor _⟩,
    ⟨edge_ne_sensor _ _, edge_ne_sensor _ _⟩, h34⟩

theorem history_foldl_addMessage {α : Type} (room : String) (message : α) (rs : List String) :
    ∀ bm : BatchManager α, rs.Nodup →
      history room (rs.foldl (fun s r => addMessage r message s) bm)
        = history room bm ++ (if room ∈ rs then [message] else []) := by
  induction rs with
  | nil => intro bm _; simp
  | cons r rs ih =>
    intro bm hnd
    rw [List.nodup_cons] at hnd
    rw [List.foldl_cons, ih _ hnd.2, history_addMessage]
    by_cases h : r = room
    · subst h
      simp [hnd.1]
    · have h' : ¬ room = r := fun e => h e.symm
      simp [h, h']

/-- C10: for every structurally valid event (`sensorType` in the schema enum,
`sensorId` and `edgeId` integers) the handler makes its `addMessage` calls on
exactly the four rooms `sensors:all`, `edge:<edgeId>`, `sensor:<sensorType>`,
`sensor:<sensorId>`; these keys are pairwise distinct, so each of the four rooms
receives the event exactly once and no other room receives it. -/
theorem valid_event_reaches_four_distinct_rooms (m : Msg) (hv : m.valid)
    (bm : BatchManager Data) :
    onMessage (some (Data.obj m)) bm
      = (roomsOf m).foldl (fun s r => addMessage r (Data.obj m) s) bm
    ∧ roomsOf m = ["sensors:all", "edge:" ++ m.edgeId.toStr, "sensor:" ++ m.sensorType.toStr,
        "sensor:" ++ m.sensorId.toStr]
    ∧ (roomsOf m).length = 4
    ∧ (roomsOf m).Nodup
    ∧ ∀ room, history room (onMessage (some (Data.obj m)) bm)
        = history room bm ++ (if room ∈ roomsOf m then [Data.obj m] else []) := by
  have hfold : onMessage (some (Data.obj m)) bm
      = (roomsOf m).foldl (fun s r => addMessage r (Data.obj m) s) bm := by
    simp only [onMessage, roomsOf, List.foldl_cons, List.foldl_nil]
  have hnd := roomsOf_nodup_of_valid m hv
  refine ⟨hfold, rfl, rfl, hnd, ?_⟩
  intro room
  rw [hfold, history_foldl_addMessage room _ _ bm hnd]

theorem valid_event_reaches_four_distinct_rooms_witness :
    (sample 7 "temperature" 1 "active").valid
    ∧ roomsOf (sample 7 "temperature" 1 "active")
        = ["sensors:all", "edge:1", "sensor:temperature", "sensor:7"]
    ∧ (roomsOf (sample 7 "temperature" 1 "active")).Nodup :=
  ⟨⟨⟨"temperature", by decide, rfl⟩, ⟨7, rfl⟩, ⟨1, rfl⟩⟩, by decide,
    (valid_event_reaches_four_distinct_rooms (sample 7 "temperature" 1 "active")
      ⟨⟨"temperature", by decide, rfl⟩, ⟨7, rfl⟩, ⟨1, rfl⟩⟩ BatchManager.new).2.2.2.1⟩

/-! ## C11: one upsert per distinct sensor -/

theorem foldl_setOf (vs : List JsVal) : ∀ acc : List JsVal,
    vs.foldl (fun acc v => if v ∈ acc then acc else acc ++ [v]) acc
      = acc ++ (firstOccurrences vs).filter (fun w => decide (w ∉ acc)) := by
  induction vs with
  | nil => intro acc; simp [firstOccurrences]
  | cons v vs ih =>
    intro acc
    simp only [List.foldl_cons]
    by_cases hv : v ∈ acc
    · rw [if_pos hv, ih]
      simp only [firstOccurrences, List.filter_cons, hv, not_true_eq_false,
        decide_False, Bool.false_eq_true, if_false, List.filter_filter]
      congr 1
      apply List.filter_congr
      intro w _
      by_cases hw : w ∈ acc
      · simp [hw]
      · have : w ≠ v := fun e => hw (e ▸ hv)
        simp [hw, this]
    · rw [if_neg hv, ih]
      simp only [firstOccurrences, List.filter_cons, hv, not_false_eq_true,
        decide_True, if_true, List.filter_filter, List.append_assoc, List.singleton_append]
      congr 2
      apply List.filter_congr
      intro w _
      by_cases hw : w ∈ acc
      · simp [hw]
      · by_cases hwv : w = v
        · simp [hw, hwv]
        · simp [hw, hwv]

theorem setOf_eq_firstOccurrences (vs : List JsVal) : setOf vs = firstOccurrences vs := by
  unfold setOf
  rw [foldl_setOf]
  simp

theorem mem_firstOccurrences (vs : List JsVal) (v : JsVal) :
    v ∈ firstOccurrences vs ↔ v ∈ vs := by
  induction vs with
  | nil => simp [firstOccurrences]
  | cons w vs ih =>
    simp only [firstOccurrences, List.mem_cons, List.mem_filter, ih, decide_eq_true_eq]
    by_cases h : v = w
    · simp [h]
    · simp [h]

theorem nodup_firstOccurrences (vs : List JsVal) : (firstOccurrences vs).Nodup := by
  induction vs with
  | nil => simp [firstOccurrences]
  | cons w vs ih =>
    simp only [firstOccurrences, List.nodup_cons, List.mem_filter, decide_eq_true_eq]
    exact ⟨fun h => h.2 rfl, ih.filter _⟩

theorem upsertLoop_ids_prefix (store : Store) (msgs : List Msg) (ids : List JsVal) :
    (upsertsOf (upsertLoop store msgs ids).1).map Prod.fst <+: ids
    ∧ ((upsertLoop store msgs ids).2 = true →
        (upsertsOf (upsertLoop store msgs ids).1).map Prod.fst = ids) := by
  induction ids with
  | nil => simp [upsertLoop, upsertsOf]
  | cons id ids ih =>
    unfold upsertLoop
    cases hf : msgs.find? (fun m => decide (m.sensorId = id)) with
    | none => simp [upsertsOf]
    | some sd =>
      by_cases hs : store.findOneAndUpdate id (updateOf sd) = true
      · simp only [hs, if_true, upsertsOf, List.map_cons, List.cons_prefix_cons, true_and,
          List.cons.injEq]
        exact ih
      · simp [hs, upsertsOf]

theorem upsertLoop_updates (store : Store) (msgs : List Msg) (ids : List JsVal) :
    ∀ p ∈ upsertsOf (upsertLoop store msgs ids).1,
      ∃ sensorData ∈ msgs, sensorData.sensorId = p.1 ∧ p.2 = updateOf sensorData := by
  induction ids with
  | nil => simp [upsertLoop, upsertsOf]
  | cons id ids ih =>
    unfold upsertLoop
    cases hf : msgs.find? (fun m => decide (m.sensorId = id)) with
    | none => simp [upsertsOf]
    | some sd =>
      have hmem : sd ∈ msgs := List.mem_of_find?_eq_some hf
      have hid : sd.sensorId = id := by simpa using List.find?_some hf
      by_cases hs : store.findOneAndUpdate id (updateOf sd) = true
      · simp only [hs, if_true, upsertsOf, List.mem_cons]
        rintro p (rfl | hp)
        · exact ⟨sd, hmem, hid, rfl⟩
        · exact ih p hp
      · simp only [hs, upsertsOf, List.mem_cons, List.not_mem_nil, or_false]
        rintro p rfl
        exact ⟨sd, hmem, hid, rfl⟩

theorem upsertsOf_persist (store : Store) (msgs : List Msg) :
    upsertsOf (persist store msgs).1 = upsertsOf (upsertLoop store msgs (uniqueSensors msgs)).1
    ∨ upsertsOf (persist store msgs).1 = [] := by
  by_cases hm : msgs = []
  · subst hm
    left
    simp [persist]
  · have hpos : 0 < msgs.length := List.length_pos.mpr hm
    by_cases hi : store.insertMany (msgs.map toReading) = false
    · right; simp [persist, hpos, hi, upsertsOf]
    · left; simp [persist, hpos, hi, upsertsOf]

theorem upsertsOf_persist_of_succeeds (store : Store) (msgs : List Msg)
    (h : (persist store msgs).2 = true) :
    upsertsOf (persist store msgs).1 = upsertsOf (upsertLoop store msgs (uniqueSensors msgs)).1
    ∧ (upsertLoop store msgs (uniqueSensors msgs)).2 = true := by
  by_cases hm : msgs = []
  · subst hm
    simp [persist, uniqueSensors, setOf, upsertLoop]
  · have hpos : 0 < msgs.length := List.length_pos.mpr hm
    by_cases hi : store.insertMany (msgs.map toReading) = false
    · simp [persist, hpos, hi] at h
    · simp only [persist, List.length_map, gt_iff_lt, hpos, hi, and_false, if_false,
        if_true, true_and] at h ⊢
      exact ⟨by simp [upsertsOf], h⟩

theorem asObjects_map_obj (msgs : List Msg) : asObjects (msgs.map Data.obj) = some msgs := by
  induction msgs with
  | nil => rfl
  | cons m ms ih => simp [asObjects, ih]

theorem flushCalls_eq (store : Store) (during : List (Op Data)) (bm : BatchManager Data)
    (msgs : List Msg) (hq : bm.dbWriteQueue = msgs.map Data.obj) :
    flushCalls store during bm = if msgs = [] then [] else (persist store msgs).1 := by
  unfold flushCalls flushDBQueue
  by_cases hm : msgs = []
  · subst hm
    simp [hq]
  · have hl : ¬ bm.dbWriteQueue.length = 0 := by
      rw [hq, List.length_map]; exact fun e => hm (List.length_eq_zero.mp e)
    simp only [hl, if_false, hq, asObjects_map_obj, hm]
    by_cases hp : (persist store msgs).2 = true
    · simp [hp, hm, storeCalls_run]
    · simp [hp, hm, storeCalls_run]

/-- C11 (as stated, refuted): with the bulk insert rejected, the flush of a
non-empty snapshot holding events of sensor 7 issues no upsert at all: sensor 7 is
missing. -/
theorem rejected_insert_issues_no_upsert :
    snapshot7.map Data.obj ≠ []
    ∧ firstOccurrences (snapshot7.map (fun m => m.sensorId)) = [JsVal.num 7]
    ∧ upsertsOf (flushCalls rejectInsert [] (withQueue (snapshot7.map Data.obj))) = [] := by
  decide

/-- C11 (amended): in every flush of a snapshot the upserts issued are, in order,
an initial part of the distinct sensorIds of the snapshot in order of first
occurrence, so no sensorId gets two upserts; when the flush meets no failure
(bulk insert and every upsert accepted) they are all of them, so none is
missing. Each upsert issued is built from an event of that sensor and carries
`firstSeen` as its only set-on-insert field and not among the `$set` or `$inc`
fields. -/
theorem flush_upserts_each_sensor_once (store : Store) (during : List (Op Data))
    (bm : BatchManager Data) (msgs : List Msg) (hq : bm.dbWriteQueue = msgs.map Data.obj) :
    (upsertsOf (flushCalls store during bm)).map Prod.fst
        <+: firstOccurrences (msgs.map (fun m => m.sensorId))
    ∧ (flushSucceeds store bm.dbWriteQueue = true →
        (upsertsOf (flushCalls store during bm)).map Prod.fst
          = firstOccurrences (msgs.map (fun m => m.sensorId)))
    ∧ (firstOccurrences (msgs.map (fun m => m.sensorId))).Nodup
    ∧ (∀ id, id ∈ firstOccurrences (msgs.map (fun m => m.sensorId))
        ↔ ∃ m ∈ msgs, m.sensorId = id)
    ∧ ∀ p ∈ upsertsOf (flushCalls store during bm),
        (∃ m ∈ msgs, m.sensorId = p.1)
        ∧ p.2.setOnInsert = [("firstSeen", UpdVal.now)]
        ∧ "firstSeen" ∉ p.2.set.map Prod.fst
        ∧ "firstSeen" ∉ p.2.inc.map Prod.fst := by
  have hcalls := flushCalls_eq store during bm msgs hq
  have huniq : uniqueSensors msgs = firstOccurrences (msgs.map (fun m => m.sensorId)) :=
    setOf_eq_firstOccurrences _
  have hloop := upsertLoop_ids_prefix store msgs (uniqueSensors msgs)
  refine ⟨?_, ?_, nodup_firstOccurrences _, ?_, ?_⟩
  · rw [hcalls]
    by_cases hm : msgs = []
    · simp [hm, upsertsOf]
    · rw [if_neg hm]
      rcases upsertsOf_persist store msgs with h | h
      · rw [h, ← huniq]; exact hloop.1
      · rw [h]; simp
  · intro hs
    rw [hq, flushSucceeds, asObjects_map_obj] at hs
    replace hs : (persist store msgs).2 = true := hs
    rw [hcalls]
    by_cases hm : msgs = []
    · simp [hm, upsertsOf, firstOccurrences]
    · rw [if_neg hm, (upsertsOf_persist_of_succeeds store msgs hs).1, ← huniq]
      exact hloop.2 (upsertsOf_persist_of_succeeds store msgs hs).2
  · intro id
    rw [mem_firstOccurrences]
    simp
  · intro p hp
    rw [hcalls] at hp
    by_cases hm : msgs = []
    · simp [hm, upsertsOf] at hp
    · rw [if_neg hm] at hp
      have hp' : p ∈ upsertsOf (upsertLoop store msgs (uniqueSensors msgs)).1 := by
        rcases upsertsOf_persist store msgs with h | h
        · rw [h] at hp; exact hp
        · rw [h] at hp; simp at hp
      obtain ⟨sd, hsd, hid, hupd⟩ := upsertLoop_updates store msgs _ p hp'
      refine ⟨⟨sd, hsd, hid⟩, ?_, ?_, ?_⟩
      · rw [hupd]; rfl
      · rw [hupd]; simp [updateOf]
      · rw [hupd]; simp [updateOf]

theorem flush_upserts_each_sensor_once_witness :
    (withQueue (snapshot78.map Data.obj)).dbWriteQueue = snapshot78.map Data.obj
    ∧ flushSucceeds acceptAll (withQueue (snapshot78.map Data.obj)).dbWriteQueue = true
    ∧ (upsertsOf (flushCalls acceptAll [] (withQueue (snapshot78.map Data.obj)))).map Prod.fst
        = firstOccurrences (snapshot78.map (fun m => m.sensorId))
    ∧ firstOccurrences (snapshot78.map (fun m => m.sensorId)) = [JsVal.num 7, JsVal.num 8] :=
  ⟨rfl, by decide,
    (flush_upserts_each_sensor_once acceptAll [] (withQueue (snapshot78.map Data.obj))
      snapshot78 rfl).2.1 (by decide),
    by decide⟩

/-! ## C12 -/

theorem splitChars_ne_nil (sep : Char) (l : List Char) : splitChars sep l ≠ [] := by
  cases l with
  | nil => simp [splitChars]
  | cons c cs =>
    unfold splitChars
    split
    · simp
    · split <;> simp

theorem splitChars_append_sep (sep : Char) (a b : List Char) (h : sep ∉ a) :
    splitChars sep (a ++ sep :: b) = a :: splitChars sep b := by
  induction a with
  | nil => simp [splitChars]
  | cons c cs ih =>
    have hc : ¬ c = sep := fun e => h (by simp [e])
    have hcs : sep ∉ cs := fun e => h (by simp [e])
    rw [List.cons_append, splitChars, if_neg hc, ih hcs]

theorem splitChars_head (sep : Char) (l : List Char) :
    (splitChars sep l).head? = some (l.takeWhile (fun c => decide (c ≠ sep))) := by
  induction l with
  | nil => simp [splitChars]
  | cons c cs ih =>
    by_cases hc : c = sep
    · simp [splitChars, hc]
    · simp only [splitChars, hc, if_false]
      cases hs : splitChars sep cs with
      | nil => exact absurd hs (splitChars_ne_nil sep cs)
      | cons piece pieces =>
        rw [hs] at ih
        simp only [List.head?_cons, Option.some.injEq] at ih
        simp [hc, ih]

theorem takeWhile_append_stop (p : Char → Bool) (a l : List Char) (ha : ∀ c ∈ a, p c = true)
    (hl : l = [] ∨ ∃ c rest, l = c :: rest ∧ p c = false) :
    (a ++ l).takeWhile p = a := by
  induction a with
  | nil =>
    rcases hl with rfl | ⟨c, rest, rfl, hc⟩
    · rfl
    · simp [hc]
  | cons c cs ih =>
    have hc : p c = true := ha c (by simp)
    simp only [List.cons_append, List.takeWhile_cons, hc, if_true]
    rw [ih (fun d hd => ha d (by simp [hd]))]

/-- The parts of a request path `/api/sensor/<seg>/<rest>` after `split('/')`. -/
theorem jsSplit_sensor_path (seg rest : String) (hseg : '/' ∉ seg.data) :
    jsSplit ("/api/sensor/" ++ seg ++ "/" ++ rest) '/'
      = "" :: "api" :: "sensor" :: seg :: jsSplit rest '/' := by
  have hd : ("/api/sensor/" ++ seg ++ "/" ++ rest).data
      = [] ++ '/' :: (['a', 'p', 'i'] ++ '/' :: (['s', 'e', 'n', 's', 'o', 'r'] ++ '/' ::
          (seg.data ++ '/' :: rest.data))) := by
    have e1 : "/api/sensor/".data
        = ['/', 'a', 'p', 'i', '/', 's', 'e', 'n', 's', 'o', 'r', '/'] := rfl
    have e2 : "/".data = ['/'] := rfl
    simp only [String.data_append, e1, e2]
    simp
  unfold jsSplit
  rw [hd, splitChars_append_sep _ _ _ (by simp), splitChars_append_sep _ _ _ (by decide),
    splitChars_append_sep _ _ _ (by decide), splitChars_append_sep _ _ _ hseg]
  rfl

theorem handleSensorAPI_of_nan {ρ α μ : Type} (env : ApiEnv ρ α μ) (url : String)
    (h : parseInt (((jsSplit url '/')[3]?).getD "undefined") = none) :
    handleSensorAPI env url = ⟨400, .failure "Invalid sensor ID", []⟩ := by
  simp only [handleSensorAPI, h]

theorem handleSensorAPI_status_of_parsed {ρ α μ : Type} (env : ApiEnv ρ α μ) (url : String)
    (n : Int) (h : parseInt (((jsSplit url '/')[3]?).getD "undefined") = some n) :
    (handleSensorAPI env url).status = 200 ∨ (handleSensorAPI env url).status = 500
      ∨ (handleSensorAPI env url).status = 404 := by
  simp only [handleSensorAPI, h]
  split_ifs
  · repeat' split
    all_goals simp
  · repeat' split
    all_goals simp
  · simp

theorem handleSensorAPI_status_of_action {ρ α μ : Type} (env : ApiEnv ρ α μ) (url : String)
    (n : Int) (h : parseInt (((jsSplit url '/')[3]?).getD "undefined") = some n)
    (ha : ((jsSplit url '/')[4]?).map (fun part => (jsSplit part '?').headD "") = some "history"
      ∨ ((jsSplit url '/')[4]?).map (fun part => (jsSplit part '?').headD "")
          = some "analytics") :
    (handleSensorAPI env url).status = 200 ∨ (handleSensorAPI env url).status = 500 := by
  simp only [handleSensorAPI, h]
  split_ifs with h1 h2
  · repeat' split
    all_goals simp
  · repeat' split
    all_goals simp
  · rcases ha with ha | ha
    · exact absurd ha h1
    · exact absurd ha h2

theorem takeWhile_append_all (p : Char → Bool) (a l : List Char)
    (ha : ∀ c ∈ a, p c = true) : (a ++ l).takeWhile p = a ++ l.takeWhile p := by
  induction a with
  | nil => rfl
  | cons c cs ih =>
    have hc : p c = true := ha c (by simp)
    simp only [List.cons_append, List.takeWhile_cons, hc, if_true]
    rw [ih (fun d hd => ha d (by simp [hd]))]

theorem jsSplit_head (s : String) (sep : Char) :
    (jsSplit s sep).head? = some (String.mk (s.data.takeWhile (fun c => decide (c ≠ sep)))) := by
  simp [jsSplit, List.head?_map, splitChars_head]

/-- The action read from `<action>` or `<action>?<query>`, for an action without
`/` and `?`. -/
theorem action_of_rest (action query : String)
    (ha : ∀ c ∈ action.data, c ≠ '/' ∧ c ≠ '?')
    (hq : query = "" ∨ ∃ q, query = "?" ++ q) :
    ((jsSplit (action ++ query) '/').head?).map (fun part => (jsSplit part '?').headD "")
      = some action := by
  rw [jsSplit_head, Option.map_some', String.data_append]
  have h2 : ∀ part : String, (jsSplit part '?').headD ""
      = String.mk (part.data.takeWhile (fun c => decide (c ≠ '?'))) := by
    intro part
    have := jsSplit_head part '?'
    cases hj : jsSplit part '?' with
    | nil => rw [hj] at this; simp at this
    | cons x xs => rw [hj] at this; simpa using this
  rw [h2]
  rw [takeWhile_append_all _ _ _ (fun c hc => by simpa using (ha c hc).1)]
  have h3 : (action.data ++ List.takeWhile (fun c => decide (c ≠ '/')) query.data).takeWhile
      (fun c => decide (c ≠ '?')) = action.data := by
    apply takeWhile_append_stop _ _ _ (fun c hc => by simpa using (ha c hc).2)
    rcases hq with rfl | ⟨q, rfl⟩
    · left; rfl
    · right
      refine ⟨'?', q.data.takeWhile (fun c => decide (c ≠ '/')), ?_, by simp⟩
      have e : ("?" ++ q).data = '?' :: q.data := by
        rw [String.data_append]; rfl
      rw [e]
      simp
  simp only [h3]

/-- C12: for a request path `/api/sensor/<seg>/<rest>`, when `parseInt(<seg>)` is
`NaN` the handler answers 400 with error `Invalid sensor ID`, whatever follows
the segment, and makes no store query; when `<seg>` parses it never answers 400,
and for the action `history` or `analytics` (with or without a query string) it
answers 200 or, when the URL constructor or a query throws, 500. -/
theorem invalid_sensor_id_answers_400 {ρ α μ : Type} (env : ApiEnv ρ α μ) (seg rest : String)
    (hseg : '/' ∉ seg.data) :
    (parseInt seg = none →
      handleSensorAPI env ("/api/sensor/" ++ seg ++ "/" ++ rest)
        = ⟨400, .failure "Invalid sensor ID", []⟩)
    ∧ (parseInt seg ≠ none →
        (handleSensorAPI env ("/api/sensor/" ++ seg ++ "/" ++ rest)).status ≠ 400)
    ∧ (parseInt seg ≠ none → ∀ action query : String,
        action = "history" ∨ action = "analytics" → (query = "" ∨ ∃ q, query = "?" ++ q) →
        rest = action ++ query →
        (handleSensorAPI env ("/api/sensor/" ++ seg ++ "/" ++ rest)).status = 200
        ∨ (handleSensorAPI env ("/api/sensor/" ++ seg ++ "/" ++ rest)).status = 500) := by
  have hparts := jsSplit_sensor_path seg rest hseg
  have h3 : ((jsSplit ("/api/sensor/" ++ seg ++ "/" ++ rest) '/')[3]?).getD "undefined" = seg := by
    rw [hparts]; simp
  refine ⟨?_, ?_, ?_⟩
  · intro hnan
    exact handleSensorAPI_of_nan env _ (by rw [h3]; exact hnan)
  · intro hp
    obtain ⟨n, hn⟩ := Option.ne_none_iff_exists'.mp hp
    rcases handleSensorAPI_status_of_parsed env _ n (by rw [h3]; exact hn) with h | h | h <;>
      rw [h] <;> decide
  · intro hp action query hact hq hrest
    obtain ⟨n, hn⟩ := Option.ne_none_iff_exists'.mp hp
    have h4 : ((jsSplit ("/api/sensor/" ++ seg ++ "/" ++ rest) '/')[4]?).map
        (fun part => (jsSplit part '?').headD "") = some action := by
      rw [hparts, hrest]
      have hchars : ∀ c ∈ action.data, c ≠ '/' ∧ c ≠ '?' := by
        rcases hact with rfl | rfl <;> decide
      have h0 : ("" :: "api" :: "sensor" :: seg :: jsSplit (action ++ query) '/')[4]?
          = (jsSplit (action ++ query) '/').head? := by
        cases jsSplit (action ++ query) '/' <;> simp
      rw [h0]
      exact action_of_rest action query hchars hq
    refine handleSensorAPI_status_of_action env _ n (by rw [h3]; exact hn) ?_
    rw [h4]
    rcases hact with rfl | rfl
    · left; rfl
    · right; rfl

theorem invalid_sensor_id_answers_400_witness :
    '/' ∉ "invalid".data ∧ parseInt "invalid" = none
    ∧ handleSensorAPI emptyEnv ("/api/sensor/" ++ "invalid" ++ "/" ++ "history?hours=1")
        = ⟨400, .failure "Invalid sensor ID", []⟩
    ∧ '/' ∉ "1".data ∧ parseInt "1" ≠ none
    ∧ (handleSensorAPI emptyEnv ("/api/sensor/" ++ "1" ++ "/" ++ "analytics?hours=24")).status
        ≠ 400 :=
  ⟨by decide, by decide,
    (invalid_sensor_id_answers_400 emptyEnv "invalid" "history?hours=1" (by decide)).1
      (by decide),
    by decide, by decide,
    (invalid_sensor_id_answers_400 emptyEnv "1" "analytics?hours=24" (by decide)).2.1
      (by decide)⟩

end SocketServer
